import Mathlib

/-!
Verification of the SummaryPanel markup engine (frontend component).

The engine lives in one React component file.  Its algorithmic core is:
  - `stripHTMLTags`   : plain-text extraction (tag removal + entity decoding)
  - `formatSummary`   : block classification (one block per input line)
  - `renderContent` / `parseHTMLColors` / `parseBoldText` : inline span resolution
  - `convertToHTML` / `formatHTMLContent` : HTML export

Everything below is a shallow embedding of that JavaScript code over `List Char`.
JavaScript regex scanning (`while (re.exec(text))` with the `g` flag) is embedded
as an explicit left-to-right scan that tries to match the concrete pattern at
each index and, on success, resumes after the matched text.  The specific
patterns used by the source are deterministic enough that their backtracking
behaviour reduces to the lazy/greedy scans implemented here; this is spelled
out at each matcher.  Recursions that consume at least one character per step
are written with a fuel parameter (initialised to the input length, which is
always sufficient) so that every definition computes by kernel reduction.
-/

/-- JavaScript `\s` character class (as used by `trim()` and the regexes). -/
def isWS (c : Char) : Bool :=
  c = ' ' || c = '\t' || c = '\n' || c = '\r' || c = Char.ofNat 11 ||
  c = Char.ofNat 12 || c = Char.ofNat 160 || c = Char.ofNat 0x1680 ||
  (0x2000 ≤ c.toNat && c.toNat ≤ 0x200a) || c = Char.ofNat 0x2028 ||
  c = Char.ofNat 0x2029 || c = Char.ofNat 0x202f || c = Char.ofNat 0x205f ||
  c = Char.ofNat 0x3000 || c = Char.ofNat 0xfeff

/-- Line terminators, which the JavaScript `.` metacharacter does not match. -/
def isLineTerm (c : Char) : Bool :=
  c = '\n' || c = '\r' || c = Char.ofNat 0x2028 || c = Char.ofNat 0x2029

/-- The two quote characters accepted by the regex class in the color patterns. -/
def isQuote (c : Char) : Bool :=
  c = '"' || c = Char.ofNat 39

/-- JavaScript `String.prototype.trim`. -/
def trimJS (l : List Char) : List Char :=
  ((l.dropWhile isWS).reverse.dropWhile isWS).reverse

/-- JavaScript `text.split('\n')`: n separators yield n+1 pieces. -/
def splitLines : List Char → List (List Char)
  | [] => [[]]
  | c :: rest =>
    if c = '\n' then [] :: splitLines rest
    else
      match splitLines rest with
      | [] => [[c]]
      | line :: more => (c :: line) :: more

/-- Match a fixed pattern case-insensitively at the head of the input and
return the rest.  Patterns are written in lower case; for non-letters
`Char.toLower` is the identity, so this also serves the case-sensitive
markdown pattern (`**`, which has no letters). -/
def dropPrefixCI : List Char → List Char → Option (List Char)
  | [], l => some l
  | _ :: _, [] => none
  | p :: ps, c :: cs => if c.toLower = p then dropPrefixCI ps cs else none

/-- The lazy `(.*?)CLOSE` idiom: capture the shortest run of non-terminator
characters up to the first (case-insensitive) occurrence of `CLOSE`, and
return the capture together with the input remaining after `CLOSE`. -/
def lazyCaptureCI (close : List Char) : List Char → Option (List Char × List Char)
  | [] =>
    match dropPrefixCI close [] with
    | some r => some ([], r)
    | none => none
  | c :: rest =>
    match dropPrefixCI close (c :: rest) with
    | some r => some ([], r)
    | none =>
      if isLineTerm c then none
      else
        match lazyCaptureCI close rest with
        | some (inner, r) => some (c :: inner, r)
        | none => none

/-- Split at the first quote character: `some (before, after)` where `before`
contains no quote and `after` is the input following the quote. -/
def firstQuoteSplit : List Char → Option (List Char × List Char)
  | [] => none
  | c :: rest =>
    if isQuote c then some ([], rest)
    else
      match firstQuoteSplit rest with
      | some (b, a) => some (c :: b, a)
      | none => none

/-- `\s+`: require at least one whitespace character, then skip the whole run. -/
def expectWS : List Char → Option (List Char)
  | [] => none
  | c :: rest => if isWS c then some (rest.dropWhile isWS) else none

/-- `['"]`: require a quote character. -/
def expectQuote : List Char → Option (List Char)
  | [] => none
  | c :: rest => if isQuote c then some rest else none

/-- Require one specific character. -/
def expectChar (x : Char) : List Char → Option (List Char)
  | [] => none
  | c :: rest => if c = x then some rest else none

/-- One step of `String.prototype.replace` with a global regex: scan left to
right, at each index try the matcher; on a match emit `build` of the captures
and resume after the matched text (the emitted replacement is not rescanned,
as in JavaScript).  `fuel` starts at the input length; every step consumes at
least one character, so it never runs out. -/
def regexReplaceGo {α : Type} (m : List Char → Option (α × Nat))
    (build : α → List Char) : Nat → List Char → List Char
  | 0, l => l
  | _ + 1, [] => []
  | fuel + 1, c :: rest =>
    match m (c :: rest) with
    | some (cap, len) =>
      build cap ++ regexReplaceGo m build fuel ((c :: rest).drop (max len 1))
    | none => c :: regexReplaceGo m build fuel rest

def regexReplace {α : Type} (m : List Char → Option (α × Nat))
    (build : α → List Char) (l : List Char) : List Char :=
  regexReplaceGo m build l.length l

/-- The `while ((match = re.exec(text)) !== null)` collection loop: gather
every match with its absolute index and length, resuming after each match. -/
def scanMatchesGo {α : Type} (m : List Char → Option (α × Nat)) :
    Nat → Nat → List Char → List (Nat × α × Nat)
  | 0, _, _ => []
  | _ + 1, _, [] => []
  | fuel + 1, i, c :: rest =>
    match m (c :: rest) with
    | some (cap, len) =>
      (i, cap, len) :: scanMatchesGo m fuel (i + max len 1) ((c :: rest).drop (max len 1))
    | none => scanMatchesGo m fuel (i + 1) rest

def scanMatches {α : Type} (m : List Char → Option (α × Nat))
    (text : List Char) : List (Nat × α × Nat) :=
  scanMatchesGo m text.length 0 text

/-- Literal global string replacement (the entity-decoding `.replace(/pat/g, rep)`
calls, whose patterns contain no metacharacters). -/
def replaceAllGo (pat rep : List Char) : Nat → List Char → List Char
  | 0, l => l
  | _ + 1, [] => []
  | fuel + 1, c :: rest =>
    if pat.isPrefixOf (c :: rest) then
      rep ++ replaceAllGo pat rep fuel ((c :: rest).drop pat.length)
    else
      c :: replaceAllGo pat rep fuel rest

def replaceAllL (pat rep l : List Char) : List Char :=
  replaceAllGo pat rep l.length l

/-- Helper for `/<[^>]*>/`: drop everything through the next `>`, or fail if
there is none.  (`[^>]*` is greedy but cannot cross a `>`, so the match always
ends at the first `>`.) -/
def dropThroughGt : List Char → Option (List Char)
  | [] => none
  | c :: rest => if c = '>' then some rest else dropThroughGt rest

/-- `text.replace(/<[^>]*>/g, '')` from `stripHTMLTags`: a `<` with a later `>`
is removed together with everything up to that `>`; a `<` never followed by
`>` stays. -/
def stripTagsGo : Nat → List Char → List Char
  | 0, l => l
  | _ + 1, [] => []
  | fuel + 1, c :: rest =>
    if c = '<' then
      match dropThroughGt rest with
      | some rest' => stripTagsGo fuel rest'
      | none => c :: stripTagsGo fuel rest
    else c :: stripTagsGo fuel rest

def stripTags (l : List Char) : List Char :=
  stripTagsGo l.length l

/-- Does `pat` occur as a contiguous substring? (used to state facts about the
exported HTML string). -/
def hasSubstr (pat : List Char) : List Char → Bool
  | [] => pat.isPrefixOf []
  | c :: rest => pat.isPrefixOf (c :: rest) || hasSubstr pat rest

/-! ### The five inline patterns of `parseBoldText` / `parseHTMLColors`

Each matcher tries its regex at the head of the input and returns the captured
groups together with the total match length (computed as input length minus
remaining length). -/

/-- `/\*\*(.*?)\*\*/g` (markdown bold). -/
def matchMdBoldAt (l : List Char) : Option (List Char × Nat) := do
  let r1 ← dropPrefixCI (("**").toList) l
  let (inner, r2) ← lazyCaptureCI (("**").toList) r1
  some (inner, l.length - r2.length)

/-- `/<b>(.*?)<\/b>/gi`. -/
def matchBTagAt (l : List Char) : Option (List Char × Nat) := do
  let r1 ← dropPrefixCI (("<b>").toList) l
  let (inner, r2) ← lazyCaptureCI (("</b>").toList) r1
  some (inner, l.length - r2.length)

/-- `/<strong>(.*?)<\/strong>/gi`. -/
def matchStrongAt (l : List Char) : Option (List Char × Nat) := do
  let r1 ← dropPrefixCI (("<strong>").toList) l
  let (inner, r2) ← lazyCaptureCI (("</strong>").toList) r1
  some (inner, l.length - r2.length)

/-- The `\s*([^'"]+?);?['"]` part of the span color pattern.  The greedy
`\s*` takes the whole whitespace run; the lazy one-or-more capture then ends
at the first quote, with a directly preceding `;` absorbed by `;?` when the
capture stays nonempty.  If the first non-whitespace character is already a
quote, the regex engine backtracks `\s*` by one so that the capture becomes
that single whitespace character.  No other backtracking can succeed: the
capture can never contain a quote, so the closing quote is always the first
quote of the input. -/
def matchColorValue (l : List Char) : Option (List Char × List Char) :=
  let ws := l.takeWhile isWS
  let r := l.dropWhile isWS
  match firstQuoteSplit r with
  | none => none
  | some (before, after) =>
    if before.isEmpty then
      match ws.getLast? with
      | some w => some ([w], after)
      | none => none
    else if 2 ≤ before.length ∧ before.getLast? = some ';' then
      some (before.dropLast, after)
    else
      some (before, after)

/-- `/<span\s+style=['"]color:\s*([^'"]+?);?['"]>(.*?)<\/span>/gi`.
Captures `(color, innerText)`.  The opening and closing quote characters are
independent single-character classes, exactly as in the regex. -/
def matchSpanColorAt (l : List Char) : Option ((List Char × List Char) × Nat) := do
  let r1 ← dropPrefixCI (("<span").toList) l
  let r2 ← expectWS r1
  let r3 ← dropPrefixCI (("style=").toList) r2
  let r4 ← expectQuote r3
  let r5 ← dropPrefixCI (("color:").toList) r4
  let (color, r6) ← matchColorValue r5
  let r7 ← expectChar '>' r6
  let (inner, r8) ← lazyCaptureCI (("</span>").toList) r7
  some ((color, inner), l.length - r8.length)

/-- `/<font\s+color=['"]([^'"]+?)['"]>(.*?)<\/font>/gi`.
Captures `(color, innerText)`. -/
def matchFontColorAt (l : List Char) : Option ((List Char × List Char) × Nat) := do
  let r1 ← dropPrefixCI (("<font").toList) l
  let r2 ← expectWS r1
  let r3 ← dropPrefixCI (("color=").toList) r2
  let r4 ← expectQuote r3
  let (color, r5) ←
    (match firstQuoteSplit r4 with
     | some (before, after) => if before.isEmpty then none else some (before, after)
     | none => none)
  let r6 ← expectChar '>' r5
  let (inner, r7) ← lazyCaptureCI (("</font>").toList) r6
  some ((color, inner), l.length - r7.length)

/-! ### The display node model

`parseBoldText` / `parseHTMLColors` build React elements.  Keys are React
bookkeeping and carry no presentation content, so they are not modelled; the
tag, the inline `style` props and the children are. -/

/-- A node produced by `parseBoldText`.  The source emits exactly two element
shapes there: `<span key=...>{string}</span>` (a plain run with no style
attribute) and `<strong key=...>{string}</strong>` (a bold run whose single
child is the raw captured string — never parsed further). -/
inductive InlineNode where
  | plainRun : List Char → InlineNode
  | boldRun : List Char → InlineNode
deriving DecidableEq

/-- A node produced by `parseHTMLColors`: either one of the flat nodes coming
from a gap (resolved by `parseBoldText`), or a colored
`<span style={{...}}>` whose children are the bold-resolved inner text. -/
inductive SpanNode where
  | flat : InlineNode → SpanNode
  | colored : List (String × List Char) → List InlineNode → SpanNode
deriving DecidableEq

/-- `<span key=...>{text}</span>` — a plain run. -/
def plainNode (s : List Char) : InlineNode := InlineNode.plainRun s

/-- `<strong key=...>{text}</strong>` — a bold run. -/
def boldNode (s : List Char) : InlineNode := InlineNode.boldRun s

/-- `<span key=... style={{ color: colorMatch.color, fontWeight: 600 }}>` —
the colored run.  The source hard-codes `fontWeight: 600` next to the color
value in the style object. -/
def coloredNode (color : List Char) (inner : List InlineNode) : SpanNode :=
  SpanNode.colored [("color", color), ("fontWeight", ("600").toList)] inner

/-- The inline style props of a display node.  A plain or bold run carries no
style attribute at all. -/
def nodeStyle : SpanNode → List (String × List Char)
  | SpanNode.colored st _ => st
  | SpanNode.flat _ => []

def isBoldRun : InlineNode → Bool
  | InlineNode.boldRun _ => true
  | _ => false

/-- Does a bold (`<strong>`) node occur anywhere in a resolved span tree?
(The output type is flat: bold runs can occur only at top level or directly
inside a colored span.) -/
def hasBoldNode (l : List SpanNode) : Bool :=
  l.any fun n =>
    match n with
    | SpanNode.flat i => isBoldRun i
    | SpanNode.colored _ inner => inner.any isBoldRun

/-- `allMatches.sort((a, b) => a.index - b.index)`: a stable ascending sort by
index (ECMAScript `Array.prototype.sort` is stable). -/
def insertByIdx {α : Type} (key : α → Nat) (x : α) : List α → List α
  | [] => [x]
  | y :: ys => if key y ≤ key x then y :: insertByIdx key x ys else x :: y :: ys

def sortByIdx {α : Type} (key : α → Nat) (l : List α) : List α :=
  l.foldl (fun acc x => insertByIdx key x acc) []

/-- `text.substring(a, b)` (used only under guards ensuring `a < b`). -/
def substringJS (text : List Char) (a b : Nat) : List Char :=
  (text.drop a).take (b - a)

structure BoldMatch where
  text : List Char
  idx : Nat
  len : Nat
deriving DecidableEq

structure ColorMatch where
  color : List Char
  text : List Char
  idx : Nat
  len : Nat
deriving DecidableEq

/-- The three bold-pattern scans of `parseBoldText`, concatenated in source
order (markdown, `<b>`, `<strong>`) and stably sorted by position. -/
def boldMatchesOf (text : List Char) : List BoldMatch :=
  let md := (scanMatches matchMdBoldAt text).map (fun m => ⟨m.2.1, m.1, m.2.2⟩)
  let bt := (scanMatches matchBTagAt text).map (fun m => ⟨m.2.1, m.1, m.2.2⟩)
  let st := (scanMatches matchStrongAt text).map (fun m => ⟨m.2.1, m.1, m.2.2⟩)
  sortByIdx (fun m => m.idx) (md ++ bt ++ st)

/-- `parseBoldText(text, keyPrefix)`: walk the sorted bold matches left to
right; gaps become plain runs, matches become `<strong>` runs whose child is
the raw captured text (no recursive parsing); if nothing was emitted, the
whole text is one plain run. -/
def parseBoldText (text : List Char) : List InlineNode :=
  let step : (List InlineNode × Nat) → BoldMatch → (List InlineNode × Nat) := fun st m =>
    let parts :=
      if st.2 < m.idx then st.1 ++ [plainNode (substringJS text st.2 m.idx)] else st.1
    (parts ++ [boldNode m.text], m.idx + m.len)
  let res := (boldMatchesOf text).foldl step ([], 0)
  let parts :=
    if res.2 < text.length then res.1 ++ [plainNode (text.drop res.2)] else res.1
  if parts.isEmpty then [plainNode text] else parts

/-- The two color-pattern scans of `parseHTMLColors` (span-style and font),
each color capture trimmed (`match[1].trim()`), concatenated and stably
sorted by position. -/
def colorMatchesOf (text : List Char) : List ColorMatch :=
  let sp := (scanMatches matchSpanColorAt text).map
    (fun m => ⟨trimJS m.2.1.1, m.2.1.2, m.1, m.2.2⟩)
  let ft := (scanMatches matchFontColorAt text).map
    (fun m => ⟨trimJS m.2.1.1, m.2.1.2, m.1, m.2.2⟩)
  sortByIdx (fun m => m.idx) (sp ++ ft)

/-- `parseHTMLColors(text)`: walk the sorted color matches; gaps and the
trailing remainder are resolved for bold only, each match becomes a colored
`<span>` whose children are the bold-resolved inner text; with no parts at
all, fall back to bold-only parsing of the whole text. -/
def parseHTMLColors (text : List Char) : List SpanNode :=
  let step : (List SpanNode × Nat) → ColorMatch → (List SpanNode × Nat) := fun st m =>
    let parts :=
      if st.2 < m.idx then
        st.1 ++ (parseBoldText (substringJS text st.2 m.idx)).map SpanNode.flat
      else st.1
    (parts ++ [coloredNode m.color (parseBoldText m.text)], m.idx + m.len)
  let res := (colorMatchesOf text).foldl step ([], 0)
  let parts :=
    if res.2 < text.length then
      res.1 ++ (parseBoldText (text.drop res.2)).map SpanNode.flat
    else res.1
  if parts.isEmpty then (parseBoldText text).map SpanNode.flat else parts

/-- `renderContent(content)`: the guard `if (!content) return content` returns
the empty string itself for empty input, which React renders as no nodes at
all; otherwise the content is resolved for colors and bold. -/
def renderContent (content : List Char) : List SpanNode :=
  if content.isEmpty then [] else parseHTMLColors content

/-! ### Block classification (`formatSummary`) -/

/-- One classified block.  The constructor names are the `type` strings the
source stores in each formatted item. -/
inductive Block where
  | space : Block
  | h1 : List Char → Block
  | h2 : List Char → Block
  | bullet : List Char → Block
  | numbered : List Char → Block
  | paragraph : List Char → Block
deriving DecidableEq

/-- `trimmed.replace(/^#\s*/, '')` and `trimmed.replace(/^##\s*/, '')`:
drop the one or two leading hashes the branch matched, then the whole
following whitespace run. -/
def stripHeading (n : Nat) (trimmed : List Char) : List Char :=
  (trimmed.drop n).dropWhile isWS

/-- `trimmed.match(/^[-*•]\s/)`. -/
def isBulletStart : List Char → Bool
  | c :: d :: _ => (c = '-' || c = '*' || c = '•') && isWS d
  | _ => false

/-- `trimmed.match(/^\d+\.\s/)`. -/
def isNumberedStart (l : List Char) : Bool :=
  let ds := l.takeWhile Char.isDigit
  !ds.isEmpty &&
    (match l.drop ds.length with
     | '.' :: d :: _ => isWS d
     | _ => false)

/-- The per-line classification of `formatSummary`: blank, `##` heading,
`#` heading, bullet (marker and its one whitespace stripped), numbered
(whole trimmed line kept verbatim), else paragraph. -/
def classifyLine (line : List Char) : Block :=
  let trimmed := trimJS line
  if trimmed.isEmpty then Block.space
  else if List.isPrefixOf (("##").toList) trimmed then Block.h2 (stripHeading 2 trimmed)
  else if List.isPrefixOf (("#").toList) trimmed then Block.h1 (stripHeading 1 trimmed)
  else if isBulletStart trimmed then Block.bullet (trimmed.drop 2)
  else if isNumberedStart trimmed then Block.numbered trimmed
  else Block.paragraph trimmed

/-- `formatSummary(text)`: the guard `if (!text) return []` yields zero
blocks for the empty string; otherwise one block per `'\n'`-separated line. -/
def formatSummary (text : List Char) : List Block :=
  if text.isEmpty then [] else (splitLines text).map classifyLine

/-! ### Plain-text extraction (`stripHTMLTags`) -/

/-- The seven chained entity `.replace` calls, applied in source order
(`&nbsp;`, `&amp;`, `&lt;`, `&gt;`, `&quot;`, `&#39;`, `&apos;`), each one
running over the output of the previous. -/
def decodeEntities (l : List Char) : List Char :=
  replaceAllL (("&apos;").toList) ((String.singleton (Char.ofNat 39)).toList)
    (replaceAllL (("&#39;").toList) ((String.singleton (Char.ofNat 39)).toList)
      (replaceAllL (("&quot;").toList) (("\"").toList)
        (replaceAllL (("&gt;").toList) ((">").toList)
          (replaceAllL (("&lt;").toList) (("<").toList)
            (replaceAllL (("&amp;").toList) (("&").toList)
              (replaceAllL (("&nbsp;").toList) ((" ").toList) l))))))

/-- `stripHTMLTags(text)`: empty input short-circuits to the empty string;
otherwise all `<...>` sequences are removed and the entity set decoded. -/
def stripHTMLTags (text : List Char) : List Char :=
  if text.isEmpty then [] else decodeEntities (stripTags text)

/-! ### HTML export (`convertToHTML` / `formatHTMLContent`) -/

/-- `formatHTMLContent(content)`: three chained regex replacements — markdown
bold to `<strong>`, `<b>` to `<strong>`, `<font color>` to a styled span.
No HTML escaping is performed anywhere in this path. -/
def formatHTMLContent (content : List Char) : List Char :=
  let f1 := regexReplace matchMdBoldAt
    (fun cap => ("<strong>").toList ++ cap ++ ("</strong>").toList) content
  let f2 := regexReplace matchBTagAt
    (fun cap => ("<strong>").toList ++ cap ++ ("</strong>").toList) f1
  regexReplace matchFontColorAt
    (fun cap => ("<span style=\"color:").toList ++ cap.1 ++ ("\">").toList ++
      cap.2 ++ ("</span>").toList) f2

/-- The per-line branch of `convertToHTML`, template literals included. -/
def convertLineHTML (line : List Char) : List Char :=
  let trimmed := trimJS line
  if trimmed.isEmpty then ("<br>\n").toList
  else if List.isPrefixOf (("##").toList) trimmed then
    ("<h3 style=\"font-size: 18px; font-weight: bold; margin-top: 16px; margin-bottom: 8px;\">").toList ++
      formatHTMLContent (stripHeading 2 trimmed) ++ ("</h3>\n").toList
  else if List.isPrefixOf (("#").toList) trimmed then
    ("<h2 style=\"font-size: 20px; font-weight: bold; margin-top: 20px; margin-bottom: 12px;\">").toList ++
      formatHTMLContent (stripHeading 1 trimmed) ++ ("</h2>\n").toList
  else if isBulletStart trimmed then
    ("<div style=\"margin-left: 20px; margin-bottom: 8px;\"><span style=\"color: #1d4ed8;\">●</span> ").toList ++
      formatHTMLContent (trimmed.drop 2) ++ ("</div>\n").toList
  else if isNumberedStart trimmed then
    ("<p style=\"margin-left: 20px; margin-bottom: 8px;\">").toList ++
      formatHTMLContent trimmed ++ ("</p>\n").toList
  else
    ("<p style=\"margin-bottom: 12px;\">").toList ++
      formatHTMLContent trimmed ++ ("</p>\n").toList

/-- `convertToHTML(text)`: the wrapping `<div>` with inline styles, one
rendered fragment per line, and the closing tag. -/
def convertToHTML (text : List Char) : List Char :=
  ("<div style=\"font-family: Arial, sans-serif; line-height: 1.6; padding: 20px;\">\n").toList ++
    List.flatten ((splitLines text).map convertLineHTML) ++ ("</div>").toList

/-! ### Claim theorems: inline resolution and export (closed statements) -/

/-- C1 (counterexample): resolving `"A &amp; B"` does not yield a Plain span
with the decoded text `"A & B"` — the resolver performs no entity decoding. -/
theorem c1_entity_decoding_cex :
    renderContent (("A &amp; B").toList) ≠
      [SpanNode.flat (plainNode (("A & B").toList))] := by decide

/-- C1 (amended): the inline-span resolver leaves entity sequences verbatim in
Plain leaf text: `"A &amp; B"` resolves to a single Plain span whose text is
the original `"A &amp; B"`.  Entity decoding happens only in the plain-text
extractor, which does map this input to `"A & B"`. -/
theorem c1_entities_preserved_in_resolver :
    renderContent (("A &amp; B").toList) =
      [SpanNode.flat (plainNode (("A &amp; B").toList))] ∧
    stripHTMLTags (("A &amp; B").toList) = ("A & B").toList := by decide

/-- C2 (counterexample): classifying the empty string does not produce one
Blank block — the `if (!text) return []` guard yields zero blocks. -/
theorem c2_empty_input_cex :
    formatSummary (("").toList) ≠ [Block.space] := by decide

/-- C2 (amended): classifying the empty string yields an empty Document (zero
blocks), and resolving the empty string yields an empty span tree. -/
theorem c2_empty_input :
    formatSummary (("").toList) = [] ∧ renderContent (("").toList) = [] := by
  exact ⟨rfl, rfl⟩

/-- C3 (counterexample): resolving `"**<span style='color:red'>x</span>**"`
produces no Bold span at all — so in particular no Bold span whose inner text
is the literal color tag. -/
theorem c3_no_bold_span_cex :
    hasBoldNode (renderContent (("**<span style='color:red'>x</span>**").toList)) =
      false := by decide

/-- C3 (amended): color tags are matched before bold at the top level, so in
`"**<span style='color:red'>x</span>**"` the color tag itself becomes a
Colored span and the surrounding `**` markers fall through as Plain text;
no Bold span is produced. -/
theorem c3_color_wins_inside_bold_markers :
    renderContent (("**<span style='color:red'>x</span>**").toList) =
      [SpanNode.flat (plainNode (("**").toList)),
       coloredNode (("red").toList) [plainNode (("x").toList)],
       SpanNode.flat (plainNode (("**").toList))] := by decide

/-- C4 (counterexample): the export renderer does not HTML-escape Plain text —
the HTML produced for `"a <x> b"` nowhere contains the escaped form `&lt;`. -/
theorem c4_export_not_escaped_cex :
    hasSubstr (("&lt;").toList) (convertToHTML (("a <x> b").toList)) = false := by
  decide

/-- C4 (amended): angle brackets of unmatched/malformed tags pass through the
export renderer verbatim: the substring `<x>` appears unchanged in the
exported HTML, and `formatHTMLContent` leaves the fragment untouched. -/
theorem c4_angle_brackets_verbatim_in_export :
    hasSubstr (("<x>").toList) (convertToHTML (("a <x> b").toList)) = true ∧
    formatHTMLContent (("a <x> b").toList) = ("a <x> b").toList := by decide

/-- C5: resolving `"<span style='color:red'>**bold**</span>"` yields exactly
one span — a Colored span with color `"red"` whose inner span tree is a single
Bold span containing the text `"bold"`. -/
theorem c5_color_nesting :
    renderContent (("<span style='color:red'>**bold**</span>").toList) =
      [coloredNode (("red").toList) [boldNode (("bold").toList)]] := by decide

/-- C8 (counterexample): the Colored display node does not carry only its
color value — its style props are not `[("color", "red")]` alone. -/
theorem c8_colored_style_cex :
    (renderContent (("<span style='color:red'>x</span>").toList)).map nodeStyle ≠
      [[("color", ("red").toList)]] := by decide

/-- C8 (amended): the Colored display node carries the color value passed
through verbatim and additionally a hard-coded `fontWeight: 600` presentation
property. -/
theorem c8_colored_node_carries_fontweight :
    renderContent (("<span style='color:red'>x</span>").toList) =
      [coloredNode (("red").toList) [plainNode (("x").toList)]] ∧
    nodeStyle (coloredNode (("red").toList) [plainNode (("x").toList)]) =
      [("color", ("red").toList), ("fontWeight", ("600").toList)] := by decide

/-! ### Claim theorems: block classification -/

/-- C6 (counterexample): for the empty string the block count (zero, by the
`if (!text)` guard) differs from the line count of the split (one). -/
theorem c6_empty_input_block_count_cex :
    (formatSummary (("").toList)).length ≠ (splitLines (("").toList)).length := by
  decide

/-- C6 (amended): for every nonempty input, the number of blocks produced by
classification equals the number of lines obtained by splitting on `'\n'`
(blank lines included) — no line is dropped and no block is invented.  The
empty string is the sole exception, short-circuited to zero blocks. -/
theorem c6_block_count_eq_line_count (text : List Char) (h : text ≠ []) :
    (formatSummary text).length = (splitLines text).length := by
  unfold formatSummary
  rw [if_neg (by simpa using h)]
  exact List.length_map _ _

theorem c6_block_count_eq_line_count_witness :
    ((("a\n\nb").toList : List Char) ≠ []) ∧
    (formatSummary (("a\n\nb").toList)).length = (splitLines (("a\n\nb").toList)).length :=
  ⟨by decide, c6_block_count_eq_line_count (("a\n\nb").toList) (by decide)⟩

/-- A list with `###` as a prefix starts with three hash characters. -/
theorem prefix_three_hashes (l : List Char)
    (h : List.isPrefixOf (("###").toList) l = true) :
    ∃ t, l = '#' :: '#' :: '#' :: t := by
  match l with
  | [] => simp [List.isPrefixOf] at h
  | [_] => simp [List.isPrefixOf] at h
  | [_, _] => simp [List.isPrefixOf] at h
  | a :: b :: c :: t =>
    simp only [List.isPrefixOf, Bool.and_eq_true, beq_iff_eq] at h
    refine ⟨t, ?_⟩
    simp only [List.cons.injEq]
    exact ⟨h.1.symm, h.2.1.symm, h.2.2.1.symm, trivial⟩

/-- C9: a line whose trimmed text starts with three (or more) `#` characters
classifies as a level-2 heading, and only the first two hashes are stripped —
the regex `/^##\s*/` consumes `##` and then whitespace, of which there is none
before the third `#` — so the content keeps the surplus hashes:
it is the trimmed line with exactly two characters dropped and still starts
with `#`. -/
theorem c9_surplus_hashes_kept (line : List Char)
    (h : List.isPrefixOf (("###").toList) (trimJS line) = true) :
    classifyLine line = Block.h2 ((trimJS line).drop 2) ∧
    List.isPrefixOf (("#").toList) ((trimJS line).drop 2) = true := by
  obtain ⟨t, ht⟩ := prefix_three_hashes _ h
  have hws : isWS '#' = false := by decide
  constructor
  · simp only [classifyLine, ht]
    simp [List.isPrefixOf, stripHeading, List.dropWhile_cons, hws]
  · rw [ht]
    simp [List.isPrefixOf]

theorem c9_surplus_hashes_kept_witness :
    (List.isPrefixOf (("###").toList) (trimJS (("### Title").toList)) = true) ∧
    (classifyLine (("### Title").toList) =
       Block.h2 ((trimJS (("### Title").toList)).drop 2) ∧
     List.isPrefixOf (("#").toList) ((trimJS (("### Title").toList)).drop 2) = true) :=
  ⟨by decide, c9_surplus_hashes_kept (("### Title").toList) (by decide)⟩

/-! ### Lemmas about tag stripping -/

theorem stripTagsGo_nil (fuel : Nat) : stripTagsGo fuel [] = [] := by
  cases fuel <;> rfl

theorem dropThroughGt_length :
    ∀ (l l' : List Char), dropThroughGt l = some l' → l'.length < l.length := by
  intro l
  induction l with
  | nil => intro l' h; simp [dropThroughGt] at h
  | cons c rest ih =>
    intro l' h
    simp only [dropThroughGt] at h
    by_cases hc : c = '>'
    · rw [if_pos hc] at h
      cases h
      simp
    · rw [if_neg hc] at h
      exact Nat.lt_succ_of_lt (ih _ h)

theorem dropThroughGt_eq_none (l : List Char) (h : ('>') ∉ l) :
    dropThroughGt l = none := by
  induction l with
  | nil => rfl
  | cons c rest ih =>
    simp only [dropThroughGt]
    have hne : ¬ c = '>' := fun e => h (by subst e; exact List.mem_cons_self _ _)
    rw [if_neg hne]
    exact ih (fun m => h (List.mem_cons_of_mem c m))

theorem mem_of_dropThroughGt (a : Char) :
    ∀ (l l' : List Char), dropThroughGt l = some l' → a ∈ l' → a ∈ l := by
  intro l
  induction l with
  | nil => intro l' h; simp [dropThroughGt] at h
  | cons c rest ih =>
    intro l' h hm
    simp only [dropThroughGt] at h
    by_cases hc : c = '>'
    · rw [if_pos hc] at h
      cases h
      exact List.mem_cons_of_mem c hm
    · rw [if_neg hc] at h
      exact List.mem_cons_of_mem c (ih _ h hm)

theorem gt_mem_of_dropThroughGt_some :
    ∀ (l l' : List Char), dropThroughGt l = some l' → ('>') ∈ l := by
  intro l
  induction l with
  | nil => intro l' h; simp [dropThroughGt] at h
  | cons c rest ih =>
    intro l' h
    simp only [dropThroughGt] at h
    by_cases hc : c = '>'
    · exact hc ▸ List.mem_cons_self c rest
    · rw [if_neg hc] at h
      exact List.mem_cons_of_mem c (ih _ h)

theorem dropThroughGt_append (rest : List Char) :
    ∀ (b : List Char), ('>') ∉ b →
      dropThroughGt (b ++ '>' :: rest) = some rest := by
  intro b
  induction b with
  | nil => intro _; simp [dropThroughGt]
  | cons c bs ih =>
    intro h
    simp only [List.cons_append, dropThroughGt]
    have hne : ¬ c = '>' := fun e => h (by subst e; exact List.mem_cons_self _ _)
    rw [if_neg hne]
    exact ih (fun m => h (List.mem_cons_of_mem c m))

theorem mem_stripTagsGo (a : Char) :
    ∀ (fuel : Nat) (l : List Char), a ∈ stripTagsGo fuel l → a ∈ l := by
  intro fuel
  induction fuel with
  | zero => intro l h; exact h
  | succ fuel ih =>
    intro l h
    cases l with
    | nil => exact h
    | cons c rest =>
      simp only [stripTagsGo] at h
      by_cases hc : c = '<'
      · rw [if_pos hc] at h
        cases hd : dropThroughGt rest with
        | some rest' =>
          rw [hd] at h
          exact List.mem_cons_of_mem c (mem_of_dropThroughGt a rest rest' hd (ih _ h))
        | none =>
          rw [hd] at h
          rcases List.mem_cons.mp h with he | hm
          · exact he ▸ List.mem_cons_self c rest
          · exact List.mem_cons_of_mem c (ih _ hm)
      · rw [if_neg hc] at h
        rcases List.mem_cons.mp h with he | hm
        · exact he ▸ List.mem_cons_self c rest
        · exact List.mem_cons_of_mem c (ih _ hm)

theorem mem_stripTags (a : Char) (l : List Char) (h : a ∈ stripTags l) : a ∈ l :=
  mem_stripTagsGo a l.length l h

/-- Fuel irrelevance: any fuel at least the input length computes the same
result as the canonical `stripTags`. -/
theorem stripTagsGo_fuel_eq :
    ∀ (fuel g : Nat) (l : List Char), l.length ≤ fuel → l.length ≤ g →
      stripTagsGo fuel l = stripTagsGo g l := by
  intro fuel
  induction fuel with
  | zero =>
    intro g l hf _
    have : l = [] := List.eq_nil_of_length_eq_zero (Nat.le_zero.mp hf)
    subst this
    rw [stripTagsGo_nil, stripTagsGo_nil]
  | succ fuel ih =>
    intro g l hf hg
    cases l with
    | nil => rw [stripTagsGo_nil, stripTagsGo_nil]
    | cons c rest =>
      cases g with
      | zero => simp at hg
      | succ g' =>
        simp only [stripTagsGo]
        by_cases hc : c = '<'
        · rw [if_pos hc, if_pos hc]
          cases hd : dropThroughGt rest with
          | some rest' =>
            have hlen := dropThroughGt_length rest rest' hd
            have hf' : rest'.length ≤ fuel := by
              simp only [List.length_cons] at hf
              omega
            have hg' : rest'.length ≤ g' := by
              simp only [List.length_cons] at hg
              omega
            exact ih g' rest' hf' hg'
          | none =>
            have hf' : rest.length ≤ fuel := by
              simp only [List.length_cons] at hf
              omega
            have hg' : rest.length ≤ g' := by
              simp only [List.length_cons] at hg
              omega
            rw [ih g' rest hf' hg']
        · rw [if_neg hc, if_neg hc]
          have hf' : rest.length ≤ fuel := by
            simp only [List.length_cons] at hf
            omega
          have hg' : rest.length ≤ g' := by
            simp only [List.length_cons] at hg
            omega
          rw [ih g' rest hf' hg']

/-! ### Claim theorem: plain-text tag removal -/

/-- C10: the plain-text extractor removes every `<...>` sequence up to the
next `>`, recognized HTML tag or not — a leading `<` followed (after any
non-`>` characters) by `>` is consumed together with that span, while a `<`
with no following `>` is kept; concretely `"a <not a tag> b"` strips to
`"a  b"`. -/
theorem c10_tag_stripping (b rest : List Char) (h : ('>') ∉ b) :
    stripTags (('<' :: b) ++ '>' :: rest) = stripTags rest ∧
    stripTags ('<' :: b) = '<' :: stripTags b ∧
    stripHTMLTags (("a <not a tag> b").toList) = ("a  b").toList := by
  refine ⟨?_, ?_, by decide⟩
  · show stripTagsGo (('<' :: b) ++ '>' :: rest).length (('<' :: b) ++ '>' :: rest) =
      stripTags rest
    simp only [List.cons_append, List.length_cons]
    simp only [stripTagsGo, if_true]
    rw [dropThroughGt_append rest b h]
    exact stripTagsGo_fuel_eq _ _ rest (by simp [List.length_append]; omega)
      (Nat.le_refl _)
  · show stripTagsGo ('<' :: b).length ('<' :: b) = '<' :: stripTags b
    simp only [List.length_cons]
    simp only [stripTagsGo, if_true]
    rw [dropThroughGt_eq_none b h]
    rfl

theorem c10_tag_stripping_witness :
    (('>') ∉ (("not a tag").toList)) ∧
    (stripTags (('<' :: (("not a tag").toList)) ++ '>' :: ((" b").toList)) =
       stripTags ((" b").toList) ∧
     stripTags ('<' :: (("not a tag").toList)) =
       '<' :: stripTags (("not a tag").toList) ∧
     stripHTMLTags (("a <not a tag> b").toList) = ("a  b").toList) :=
  ⟨by decide, c10_tag_stripping (("not a tag").toList) ((" b").toList) (by decide)⟩

/-! ### Idempotence of the plain-text extractor without entities -/

theorem dropThroughGt_ne_none_of_mem :
    ∀ (l : List Char), ('>') ∈ l → dropThroughGt l ≠ none := by
  intro l
  induction l with
  | nil => intro h; simp at h
  | cons d ds ih =>
    intro h
    simp only [dropThroughGt]
    by_cases hd : d = '>'
    · rw [if_pos hd]
      exact fun hn => Option.noConfusion hn
    · rw [if_neg hd]
      rcases List.mem_cons.mp h with he | hm
      · exact absurd he.symm hd
      · exact ih hm

/-- No `<` in the list still has a `>` somewhere after it — the shape of
tag-stripped output, on which tag stripping is the identity. -/
def NoTag : List Char → Prop
  | [] => True
  | c :: rest => (c = '<' → ('>') ∉ rest) ∧ NoTag rest

theorem noTag_stripTagsGo :
    ∀ (fuel : Nat) (l : List Char), l.length ≤ fuel → NoTag (stripTagsGo fuel l) := by
  intro fuel
  induction fuel with
  | zero =>
    intro l hf
    have : l = [] := List.eq_nil_of_length_eq_zero (Nat.le_zero.mp hf)
    subst this
    exact trivial
  | succ fuel ih =>
    intro l hf
    cases l with
    | nil => exact trivial
    | cons c rest =>
      simp only [List.length_cons] at hf
      simp only [stripTagsGo]
      by_cases hc : c = '<'
      · rw [if_pos hc]
        cases hd : dropThroughGt rest with
        | some rest' =>
          have := dropThroughGt_length rest rest' hd
          exact ih rest' (by omega)
        | none =>
          refine ⟨fun _ hgt => ?_, ih rest (by omega)⟩
          have hmem : ('>') ∈ rest := mem_stripTagsGo _ fuel rest hgt
          exact dropThroughGt_ne_none_of_mem rest hmem hd
      · rw [if_neg hc]
        exact ⟨fun he => absurd he hc, ih rest (by omega)⟩

theorem stripTagsGo_of_noTag :
    ∀ (fuel : Nat) (l : List Char), NoTag l → stripTagsGo fuel l = l := by
  intro fuel
  induction fuel with
  | zero => intro l _; rfl
  | succ fuel ih =>
    intro l hl
    cases l with
    | nil => rfl
    | cons c rest =>
      simp only [stripTagsGo]
      by_cases hc : c = '<'
      · rw [if_pos hc, dropThroughGt_eq_none rest (hl.1 hc)]
        rw [ih rest hl.2]
      · rw [if_neg hc, ih rest hl.2]

theorem stripTags_idem (l : List Char) : stripTags (stripTags l) = stripTags l :=
  stripTagsGo_of_noTag (stripTags l).length (stripTags l)
    (noTag_stripTagsGo l.length l (Nat.le_refl _))

/-! ### Entity replacement is the identity without an ampersand -/

theorem replaceAllGo_not_head_mem (c : Char) (ps rep : List Char) :
    ∀ (fuel : Nat) (l : List Char), c ∉ l → replaceAllGo (c :: ps) rep fuel l = l := by
  intro fuel
  induction fuel with
  | zero => intro l _; rfl
  | succ fuel ih =>
    intro l h
    cases l with
    | nil => rfl
    | cons d rest =>
      have hcd : ¬ c = d := fun e => h (by subst e; exact List.mem_cons_self _ _)
      have hpre : List.isPrefixOf (c :: ps) (d :: rest) = false := by
        simp only [List.isPrefixOf, Bool.and_eq_false_iff]
        exact Or.inl (beq_eq_false_iff_ne.mpr hcd)
      simp only [replaceAllGo, hpre, Bool.false_eq_true, if_false]
      rw [ih rest (fun m => h (List.mem_cons_of_mem d m))]

theorem replaceAllL_amp_pat (s rep l : List Char)
    (hs : s.head? = some '&') (h : ('&') ∉ l) : replaceAllL s rep l = l := by
  cases s with
  | nil => simp at hs
  | cons c ps =>
    simp only [List.head?] at hs
    cases hs
    exact replaceAllGo_not_head_mem '&' ps rep l.length l h

theorem decodeEntities_no_amp (l : List Char) (h : ('&') ∉ l) :
    decodeEntities l = l := by
  unfold decodeEntities
  rw [replaceAllL_amp_pat (("&nbsp;").toList) ((" ").toList) l (by decide) h]
  rw [replaceAllL_amp_pat (("&amp;").toList) (("&").toList) l (by decide) h]
  rw [replaceAllL_amp_pat (("&lt;").toList) (("<").toList) l (by decide) h]
  rw [replaceAllL_amp_pat (("&gt;").toList) ((">").toList) l (by decide) h]
  rw [replaceAllL_amp_pat (("&quot;").toList) (("\"").toList) l (by decide) h]
  rw [replaceAllL_amp_pat (("&#39;").toList)
    ((String.singleton (Char.ofNat 39)).toList) l (by decide) h]
  rw [replaceAllL_amp_pat (("&apos;").toList)
    ((String.singleton (Char.ofNat 39)).toList) l (by decide) h]

/-! ### Claim theorems: plain-text idempotence -/

/-- C7 (counterexample): `"&amp;amp;"` contains no bold or color markup — the
resolver's match scans find nothing in it — yet the plain-text extractor is
not idempotent on it: one pass gives `"&amp;"`, a second pass gives `"&"`. -/
theorem c7_idempotence_cex :
    boldMatchesOf (("&amp;amp;").toList) = [] ∧
    colorMatchesOf (("&amp;amp;").toList) = [] ∧
    stripHTMLTags (stripHTMLTags (("&amp;amp;").toList)) ≠
      stripHTMLTags (("&amp;amp;").toList) := by decide

/-- C7 (amended): the plain-text extractor is idempotent on every input that
contains no ampersand (hence no entity sequences) — HTML tags and markdown
bold markers are allowed, since tag removal is idempotent and `**` is never
touched.  Entity decoding is the sole source of non-idempotence. -/
theorem c7_idempotent_without_entities (x : List Char) (h : ('&') ∉ x) :
    stripHTMLTags (stripHTMLTags x) = stripHTMLTags x := by
  by_cases hx : x = []
  · subst hx; rfl
  · have hxe : x.isEmpty = false := by
      cases x with
      | nil => exact absurd rfl hx
      | cons a b => rfl
    have h1 : stripHTMLTags x = stripTags x := by
      unfold stripHTMLTags
      rw [hxe]
      simp only [Bool.false_eq_true, if_false]
      exact decodeEntities_no_amp _ (fun hm => h (mem_stripTags '&' x hm))
    rw [h1]
    by_cases hst : stripTags x = []
    · rw [hst]; rfl
    · have hste : (stripTags x).isEmpty = false := by
        cases he : stripTags x with
        | nil => exact absurd he hst
        | cons a b => rfl
      unfold stripHTMLTags
      rw [hste]
      simp only [Bool.false_eq_true, if_false]
      rw [stripTags_idem]
      exact decodeEntities_no_amp _ (fun hm => h (mem_stripTags '&' x hm))

theorem c7_idempotent_without_entities_witness :
    (('&') ∉ (("a <x> b **c**").toList)) ∧
    stripHTMLTags (stripHTMLTags (("a <x> b **c**").toList)) =
      stripHTMLTags (("a <x> b **c**").toList) :=
  ⟨by decide, c7_idempotent_without_entities (("a <x> b **c**").toList) (by decide)⟩
